import Mathlib

/-!
Verification model of `scrape_data.py` from the brand-reputation-monitor
repository: a multi-source acquisition and normalization pipeline
(product listing traversal, testimonial collection, a two-tier review
collector with an API tier and a product-page-scan fallback tier, a
JSON-blob scanner, and a date normalizer).

Network responses are modelled as explicit environment functions passed
into each collector; the third-party permissive date parser
(`dateutil.parser.parse`) is modelled as an oracle parameter
`String → Option Rat` returning a UTC instant in epoch seconds, since it
is an external library whose exact behavior the pipeline does not depend
on (every parsed date passes through the year filter afterwards).
Python exceptions that escape a collector are modelled with `Except`.
-/

namespace Scrape

/-- A decoded JSON value, as produced by Python's `json` module.  Numbers
are modelled exactly as rationals (Python ints are exact; floats are
approximated by the exact decimal value written in the source text).
Objects are association lists with unique keys (later duplicate keys
overwrite earlier ones, as in a Python `dict`). -/
inductive JVal where
  | null
  | bool (b : Bool)
  | num (n : Rat)
  | str (s : String)
  | arr (elems : List JVal)
  | obj (members : List (String × JVal))

/-- Python truthiness of a JSON value: `None`, `False`, `0`, `""`, `[]`,
and `\x7b\x7d` are falsy, everything else truthy. -/
def pyTruthy : JVal → Bool
  | .null => false
  | .bool b => b
  | .num n => n ≠ 0
  | .str s => s ≠ ""
  | .arr l => !l.isEmpty
  | .obj m => !m.isEmpty

/-- Python's `a or b or … or z`: the first truthy operand, else the last
operand. -/
def pyOrChain : List JVal → JVal
  | [] => .null
  | [v] => v
  | v :: rest => if pyTruthy v then v else pyOrChain rest

/-- Python `dict.get(k)`: the value bound to `k`, or `None` when absent. -/
def jget (members : List (String × JVal)) (k : String) : JVal :=
  (members.lookup k).getD .null

/-- The ASCII whitespace stripped by Python's `str.strip()` (the Unicode
whitespace beyond ASCII is not modelled). -/
def isPyWs (c : Char) : Bool :=
  c = ' ' || c = '\t' || c = '\n' || c = '\r' || c = '\x0b' || c = '\x0c'

/-- Python `str.strip()`: remove leading and trailing whitespace. -/
def pyStrip (s : String) : String :=
  String.mk (((s.data.dropWhile isPyWs).reverse.dropWhile isPyWs).reverse)

/-- Python `str.lower()` (ASCII case mapping). -/
def pyLower (s : String) : String :=
  String.mk (s.data.map Char.toLower)

/-- Python `x.strip()` on the result of an `or`-chain: succeeds (trimming
whitespace) only when the value is a string; a truthy non-string raises
`AttributeError`, modelled as `Except.error`. -/
def pyStripStr : JVal → Except Unit String
  | .str s => .ok (pyStrip s)
  | _ => .error ()

/-- Rendering used by Python's `str()` when `_parse_date` receives a
non-numeric, non-string value.  Only the string case is load-bearing
(`str` of a `str` is itself); the other cases feed the free-text date
oracle, which is universally quantified, so their exact spelling is
immaterial.  String escaping inside `repr` is not reproduced. -/
def pyStr : JVal → String
  | .null => "None"
  | .bool b => if b then "True" else "False"
  | .num n => toString n
  | .str s => s
  | .arr _ => "[...]"
  | .obj _ => "\x7b...\x7d"

/-! ### Date model

A UTC instant is epoch seconds as an exact rational.  A calendar date is
obtained from an instant by the standard days-from-civil inverse
(Gregorian, proleptic), matching `datetime.fromtimestamp(ts, tz=utc)`. -/

/-- A UTC calendar date. -/
structure Date where
  year : Int
  month : Nat
  day : Nat
deriving DecidableEq

/-- Gregorian calendar date of a day count relative to 1970-01-01
(Howard Hinnant's `civil_from_days`). -/
def civilFromDays (z0 : Int) : Date :=
  let z := z0 + 719468
  let era := Int.fdiv z 146097
  let doe := z - era * 146097
  let yoe := Int.fdiv (doe - Int.fdiv doe 1460 + Int.fdiv doe 36524 - Int.fdiv doe 146096) 365
  let y := yoe + era * 400
  let doy := doe - (365 * yoe + Int.fdiv yoe 4 - Int.fdiv yoe 100)
  let mp := Int.fdiv (5 * doy + 2) 153
  let d := doy - Int.fdiv (153 * mp + 2) 5 + 1
  let m := if mp < 10 then mp + 3 else mp - 9
  { year := if m ≤ 2 then y + 1 else y, month := m.toNat, day := d.toNat }

/-- Calendar date (UTC) of an epoch instant, as `datetime.date()` on a
UTC datetime. -/
def dateOf (ts : Rat) : Date := civilFromDays (Int.fdiv (Rat.floor ts) 86400)

/-- Model of `datetime.year` of the UTC datetime at an epoch instant. -/
def yearOf (ts : Rat) : Int := (dateOf ts).year

/-- Left-pad the decimal rendering of `n` with zeros to width `w`. -/
def padNum (w : Nat) (n : Nat) : String :=
  let s := toString n
  String.mk (List.replicate (w - s.length) '0') ++ s

/-- Model of `date.isoformat()`: `YYYY-MM-DD`, zero-padded. -/
def isoDate (d : Date) : String :=
  padNum 4 d.year.toNat ++ "-" ++ padNum 2 d.month ++ "-" ++ padNum 2 d.day

/-- Model of `datetime.fromtimestamp(ts, tz=utc)`: defined only for instants whose
UTC datetime falls in years 1..9999 (outside that range CPython raises,
which `_parse_date` catches and turns into `None`). -/
def fromtimestampOpt (ts : Rat) : Option Rat :=
  if -62135596800 ≤ ts ∧ ts < 253402300800 then some ts else none

/-- Model of `_parse_date` (scrape_data.py:154-177).  `None` yields none; an
`int`/`float` (Python `bool` is an `int`: `True`/`False` are 1/0) goes
through the epoch branch, dividing by 1000 when above 10^10; anything
else is rendered with `str`, stripped, and handed to the permissive
free-text parser `oracle` (a model of `dateutil.parser.parse` composed
with UTC normalization); any failure yields none. -/
def parseDate (oracle : String → Option Rat) : JVal → Option Rat
  | .null => none
  | .num n =>
      let ts := if 10000000000 < n then n / 1000 else n
      fromtimestampOpt ts
  | .bool b => fromtimestampOpt (if b then 1 else 0)
  | v =>
      let s := pyStrip (pyStr v)
      if s = "" then none
      else
        match oracle s with
        | none => none
        | some dt => some dt

/-- Model of `_keep_only_2023` (scrape_data.py:180-184): keep the instant only
when its UTC year is exactly 2023. -/
def keepOnly2023 : Option Rat → Option Rat
  | none => none
  | some dt => if yearOf dt = 2023 then some dt else none

/-! ### `PRICE_RE` — `\b(\d{1,5}\.\d{2})\b` — and `_extract_price` -/

/-- A regex word character (`\w`), deciding `\b` boundaries (ASCII; the
source compiles the pattern on `str` without `re.ASCII`, but non-ASCII
word characters are not modelled). -/
def isWordChar (c : Char) : Bool := c.isAlphanum || c = '_'

/-- Attempt `(\d{1,5}\.\d{2})\b` at the current position (the `\b` before
the digits is the caller's responsibility).  Because `\d{1,5}` is greedy
and any shorter backtracked digit count would be followed by another
digit rather than `.`, the pattern matches here iff the maximal digit
run has length 1..5 and is followed by `.`, two digits, and a non-word
character (or the end).  Returns the matched characters and the rest. -/
def priceMatchHere (cs : List Char) : Option (List Char × List Char) :=
  let ds := cs.takeWhile Char.isDigit
  let rest1 := cs.drop ds.length
  if ds.length = 0 ∨ 5 < ds.length then none
  else
    match rest1 with
    | '.' :: a :: b :: r3 =>
        if a.isDigit && b.isDigit then
          match r3 with
          | [] => some (ds ++ '.' :: a :: [b], [])
          | c :: _ => if isWordChar c then none else some (ds ++ '.' :: a :: [b], r3)
        else none
    | _ => none

/-- Model of `PRICE_RE.findall`: left-to-right non-overlapping scan; `prev` is the
character before the current position (for the leading `\b`).  After a
match the scan resumes right after it, remembering its final digit as
`prev`.  The fuel starts at the string length; every step consumes at
least one character. -/
def priceFindallGo : Nat → Option Char → List Char → List String
  | 0, _, _ => []
  | _ + 1, _, [] => []
  | fuel + 1, prev, c :: rest =>
    let boundary := match prev with
      | none => true
      | some p => !isWordChar p
    if boundary then
      match priceMatchHere (c :: rest) with
      | some (m, r) => String.mk m :: priceFindallGo fuel (some (m.reverse.headD '0')) r
      | none => priceFindallGo fuel (some c) rest
    else priceFindallGo fuel (some c) rest

/-- All matches of `PRICE_RE` in `s`, in order. -/
def priceFindall (s : String) : List String := priceFindallGo s.length none s.data

/-- Model of `_extract_price` (scrape_data.py:39-41): the last match, if any. -/
def extract_price (s : String) : Option String := (priceFindall s).getLast?

/-! ### `PRODUCT_ID_RE` — `(?:https?://web-scraping\.dev)?/product/(\d+)` -/

/-- Case-insensitive character comparison (`re.IGNORECASE`). -/
def ciEq (a b : Char) : Bool := a.toLower = b.toLower

/-- Strip a literal pattern prefix case-insensitively, returning the
remainder on success. -/
def stripLitCI : List Char → List Char → Option (List Char)
  | [], cs => some cs
  | _ :: _, [] => none
  | p :: ps, c :: cs => if ciEq p c then stripLitCI ps cs else none

/-- Attempt `/product/(\d+)` at the current position, capturing the
maximal digit run. -/
def prodIdHere (cs : List Char) : Option String :=
  match stripLitCI "/product/".data cs with
  | none => none
  | some rest =>
    let ds := rest.takeWhile Char.isDigit
    if ds.isEmpty then none else some (String.mk ds)

/-- Model of `PRODUCT_ID_RE.search(...).group(1)`.  The origin group
`(?:https?://web-scraping\.dev)?` is optional, so the full pattern
matches somewhere iff `/product/(\d+)` does, with the same captured
digits; the model therefore searches for the mandatory part at each
position, leftmost first. -/
def productIdSearchL : List Char → Option String
  | [] => none
  | c :: rest =>
    match prodIdHere (c :: rest) with
    | some pid => some pid
    | none => productIdSearchL rest

/-- Model of `PRODUCT_ID_RE.search` on a string, returning the captured id. -/
def productIdSearch (s : String) : Option String := productIdSearchL s.data

/-! ### URL resolution and the listing environment -/

/-- The site origin (scrape_data.py:14). -/
def BASE : String := "https://web-scraping.dev"

/-- List-level `startsWith` (kernel-reducible). -/
def startsWithL : List Char → List Char → Bool
  | [], _ => true
  | _ :: _, [] => false
  | p :: ps, c :: cs => p = c && startsWithL ps cs

/-- Model of `urllib.parse.urljoin` for the reference shapes this scraper
produces: absolute URLs are kept, and other references are resolved
against the path-less site origin. -/
def urljoin (base rel : String) : String :=
  if startsWithL "http://".data rel.data || startsWithL "https://".data rel.data then rel
  else if startsWithL "/".data rel.data then base ++ rel
  else base ++ "/" ++ rel

/-- One `<a href=…>` element of a listing page, as seen through the
markup extractor: its `href` attribute, its collapsed text
(`get_text(" ", strip=True)`), and the collapsed texts of its ancestor
chain, nearest ancestor first. -/
structure Anchor where
  href : String
  text : String
  ancestors : List String

/-- A raw (category-tagged) product record (scrape_data.py:80-82). -/
structure RawProduct where
  id : String
  name : String
  price : Option String
  url : String
  category : String
deriving DecidableEq

/-- A published product record after global dedup
(scrape_data.py:105). -/
structure Product where
  id : String
  name : String
  price : String
  url : String
deriving DecidableEq

/-- Python truthiness of `price` (an optional string): `None` and the
empty string are falsy. -/
def truthyOptStr : Option String → Bool
  | none => false
  | some s => s ≠ ""

/-- The ancestor walk of scrape_data.py:69-78: up to 6 iterations, each
moving one ancestor up; stop early when the chain ends (keeping the
previous iteration's `price`) or when an extracted price is truthy. -/
def anchorPriceGo : Nat → Option String → List String → Option String
  | 0, price, _ => price
  | _ + 1, price, [] => price
  | fuel + 1, _, t :: rest =>
    let price := extract_price t
    if truthyOptStr price then price else anchorPriceGo fuel price rest

/-- The price recorded for an anchor: the ancestor walk started with
`price = None` and 6 iterations. -/
def anchorPrice (ancestors : List String) : Option String :=
  anchorPriceGo 6 none ancestors

/-- The per-anchor body of the listing loop (scrape_data.py:55-84):
skip anchors without a product-id href, with an already seen id, or with
empty text; otherwise record a raw product and mark the id seen.
Returns the products recorded on this page (in order), the updated seen
set, and the count `page_items`. -/
def processAnchors (cat : String) (seen : List String) :
    List Anchor → List RawProduct × List String × Nat
  | [] => ([], seen, 0)
  | a :: rest =>
    let href := pyStrip a.href
    match productIdSearch href with
    | none => processAnchors cat seen rest
    | some pid =>
      if pid ∈ seen then processAnchors cat seen rest
      else if a.text = "" then processAnchors cat seen rest
      else
        let prod : RawProduct :=
          { id := pid, name := a.text, price := anchorPrice a.ancestors
            url := urljoin BASE href, category := cat }
        let (ps, seen', n) := processAnchors cat (pid :: seen) rest
        (prod :: ps, seen', n + 1)

/-- One category's pagination (scrape_data.py:50-90): fetch the listed
pages in order; after each page, stop when it recorded zero items.
Also returns the per-fetched-page item counts, one entry per page
actually fetched (observable in the source as one progress line printed
per fetch). -/
def scrapeCatGo (pagesEnv : Nat → List Anchor) (cat : String) :
    List Nat → List String → List RawProduct × List String × List Nat
  | [], seen => ([], seen, [])
  | p :: rest, seen =>
    let (ps, seen', n) := processAnchors cat seen (pagesEnv p)
    if n = 0 then (ps, seen', [0])
    else
      let (qs, seenF, counts) := scrapeCatGo pagesEnv cat rest seen'
      (ps ++ qs, seenF, n :: counts)

/-- The category fold of `scrape_products` (scrape_data.py:49-92): the
`seen_ids` set is created once, before the category loop, and shared by
both categories' scans. -/
def scrapeAllGo (env : String → Nat → List Anchor) (maxPages : Nat) :
    List String → List String → List RawProduct × List (String × List Nat)
  | [], _ => ([], [])
  | c :: cs, seen =>
    let (ps, seen', counts) := scrapeCatGo (env c) c (List.range' 1 maxPages) seen
    let (qs, traces) := scrapeAllGo env maxPages cs seen'
    (ps ++ qs, (c, counts) :: traces)

/-- Model of `scrape_products` (scrape_data.py:44-92) over an environment mapping
`(category, page)` to the anchors of the fetched listing page.  Returns
the raw products plus, per category, the trace of per-page item
counts. -/
def scrape_products (env : String → Nat → List Anchor) (maxPages : Nat) :
    List RawProduct × List (String × List Nat) :=
  scrapeAllGo env maxPages ["apparel", "consumables"] []

/-! ### `dedupe_products_by_name_price` -/

/-- The dedup key of a raw product: lowercased stripped name and
stripped price (`None` price reads as `""`). -/
def prodKey (p : RawProduct) : String × String :=
  (pyLower (pyStrip p.name), pyStrip (p.price.getD ""))

/-- The published record kept for a raw product (scrape_data.py:105):
first occurrence's id and url, normalized name and price, category
dropped. -/
def mkDeduped (p : RawProduct) : Product :=
  { id := p.id, name := pyStrip p.name, price := pyStrip (p.price.getD ""), url := p.url }

/-- The loop of `dedupe_products_by_name_price` (scrape_data.py:95-106). -/
def dedupeGo (seen : List (String × String)) : List RawProduct → List Product
  | [] => []
  | p :: rest =>
    let key := prodKey p
    if key ∈ seen then dedupeGo seen rest
    else mkDeduped p :: dedupeGo (key :: seen) rest

/-- Model of `dedupe_products_by_name_price` (scrape_data.py:95-106). -/
def dedupe_products_by_name_price (products : List RawProduct) : List Product :=
  dedupeGo [] products

/-- Modelled from the spec's words (§4.5 post-processing): keep, in
input order, each raw product whose key has not occurred earlier. -/
def firstOccGo (seen : List (String × String)) : List RawProduct → List RawProduct
  | [] => []
  | p :: rest =>
    if prodKey p ∈ seen then firstOccGo seen rest
    else p :: firstOccGo (prodKey p :: seen) rest

/-- The first occurrence of each key group, in input order (spec-side
formulation of the dedup contract). -/
def firstOccurrences (l : List RawProduct) : List RawProduct := firstOccGo [] l

/-! ### `scrape_testimonials` -/

/-- A testimonials-endpoint response: its HTTP status and the collapsed
texts of the elements selected by
`p, blockquote, li, .testimonial, .testimonial-text` inside `main`, in
document order. -/
structure TResp where
  status : Nat
  elems : List String

/-- A kept testimonial record. -/
structure Testimonial where
  comment : String
deriving DecidableEq

/-- The step-up-auth retry (scrape_data.py:117-124): on 401/403 the page
is refetched once with the secret token header; the environment provides
both the plain and the token-bearing response per page. -/
def effResp (pr : TResp × TResp) : TResp :=
  if pr.1.status = 401 ∨ pr.1.status = 403 then pr.2 else pr.1

/-- Candidate extraction (scrape_data.py:131-135): element texts that
are non-empty and at least 20 characters long. -/
def candidatesOf (r : TResp) : List String :=
  r.elems.filter fun t => t ≠ "" && 20 ≤ t.length

/-- The dedup pass over one page's candidates (scrape_data.py:137-143):
returns the newly kept texts in order and the updated seen set. -/
def addNew : List String → List String → List String × List String
  | [], seen => ([], seen)
  | t :: ts, seen =>
    if t ∈ seen then addNew ts seen
    else
      let (ns, seen') := addNew ts (t :: seen)
      (t :: ns, seen')

/-- The page loop of `scrape_testimonials` (scrape_data.py:116-149):
non-200 (after the step-up retry) ends pagination; a page adding zero
new testimonials ends pagination after its (empty) contribution. -/
def testimonialsGo (env : Nat → TResp × TResp) :
    List Nat → List String → List Testimonial
  | [], _ => []
  | p :: rest, seen =>
    let r := effResp (env p)
    if r.status ≠ 200 then []
    else
      let (new, seen') := addNew (candidatesOf r) seen
      let more := if new.isEmpty then [] else testimonialsGo env rest seen'
      new.map (fun t => ⟨t⟩) ++ more

/-- Model of `scrape_testimonials` (scrape_data.py:109-151). -/
def scrape_testimonials (env : Nat → TResp × TResp) (maxPages : Nat) :
    List Testimonial :=
  testimonialsGo env (List.range' 1 maxPages) []

/-! ### JSON decoding (Python `json` module)

A recursive-descent model of `json.JSONDecoder().raw_decode`, structural
on a fuel that the entry point sets to the input length plus one (every
recursive call first consumes at least one character, so nesting depth
never exceeds the length). -/

/-- JSON whitespace. -/
def isJsonWs (c : Char) : Bool := c = ' ' || c = '\t' || c = '\n' || c = '\r'

/-- Skip JSON whitespace. -/
def skipJsonWs : List Char → List Char
  | [] => []
  | c :: cs =>
    match isJsonWs c with
    | true => skipJsonWs cs
    | false => c :: cs

/-- Value of a hex digit (upper or lower case). -/
def hexDigit (c : Char) : Option Nat :=
  if c.isDigit then some (c.toNat - 48)
  else
    let lc := c.toLower
    if 'a' ≤ lc ∧ lc ≤ 'f' then some (lc.toNat - 97 + 10) else none

/-- A four-hex-digit scalar value. -/
def hex4 (a b c d : Char) : Option Nat :=
  match hexDigit a, hexDigit b, hexDigit c, hexDigit d with
  | some va, some vb, some vc, some vd =>
    some (va * 4096 + vb * 256 + vc * 16 + vd)
  | _, _, _, _ => none

/-- One-character escapes accepted after a backslash (the `BACKSLASH`
table of the scanner). -/
def jsonEscape (e : Char) : Option Char :=
  match e with
  | 'b' => some '\x08'
  | 'f' => some '\x0c'
  | 'n' => some '\n'
  | 'r' => some '\r'
  | 't' => some '\t'
  | _ => if e = '"' ∨ e = '\\' ∨ e = '/' then some e else none

/-- String body parser (after the opening quote), strict mode: raw
control characters and unknown escapes are errors.  `\uXXXX` surrogate
pairs are combined; a lone surrogate (which CPython would keep in its
string) has no `Char` counterpart in Lean and maps through
`Char.ofNat`'s fallback. -/
def parseJsonStrF : Nat → List Char → List Char → Option (String × List Char)
  | 0, _, _ => none
  | _ + 1, acc, '"' :: rest => some (String.mk acc.reverse, rest)
  | fuel + 1, acc, '\\' :: 'u' :: a :: b :: c :: d :: rest =>
    (match hex4 a b c d with
    | none => none
    | some n =>
      if 0xD800 ≤ n ∧ n ≤ 0xDBFF then
        match rest with
        | '\\' :: 'u' :: a2 :: b2 :: c2 :: d2 :: rest2 =>
          (match hex4 a2 b2 c2 d2 with
          | none => none
          | some m =>
            if 0xDC00 ≤ m ∧ m ≤ 0xDFFF then
              let cp := 0x10000 + (n - 0xD800) * 0x400 + (m - 0xDC00)
              parseJsonStrF fuel (Char.ofNat cp :: acc) rest2
            else
              -- a valid second escape that is not a low surrogate is
              -- left in place for the next loop iteration (CPython).
              parseJsonStrF fuel (Char.ofNat n :: acc)
                ('\\' :: 'u' :: a2 :: b2 :: c2 :: d2 :: rest2))
        | other => parseJsonStrF fuel (Char.ofNat n :: acc) other
      else parseJsonStrF fuel (Char.ofNat n :: acc) rest)
  | fuel + 1, acc, '\\' :: e :: rest =>
    (match jsonEscape e with
    | some ch => parseJsonStrF fuel (ch :: acc) rest
    | none => none)
  | fuel + 1, acc, c :: rest =>
    if c.toNat < 0x20 then none else parseJsonStrF fuel (c :: acc) rest
  | _ + 1, _, [] => none

/-- The `py_scanstring` entry point: every loop iteration consumes at least
one character, so fuel equal to the input length plus one never runs
out. -/
def parseJsonStr (acc : List Char) (cs : List Char) : Option (String × List Char) :=
  parseJsonStrF (cs.length + 1) acc cs

/-- Decimal digits to a natural number. -/
def digitsToNat (ds : List Char) : Nat :=
  ds.foldl (fun acc c => acc * 10 + (c.toNat - '0'.toNat)) 0

/-- Split an optional exponent sign off the front: whether the exponent
is negated, and the remainder. -/
def expSign : List Char → Bool × List Char
  | '-' :: tail => (true, tail)
  | '+' :: tail => (false, tail)
  | other => (false, other)

/-- Fraction and exponent of a JSON number (`(\.\d+)?([eE][-+]?\d+)?`,
taken only when complete), then assembly of the exact `Rat` value. -/
def jsonNumTail (neg : Bool) (intDs : List Char) (cs2 : List Char) : Rat × List Char :=
  let (fracDs, cs3) := match cs2 with
    | '.' :: r =>
      let ds := r.takeWhile Char.isDigit
      if ds.isEmpty then (([] : List Char), cs2) else (ds, r.drop ds.length)
    | _ => ([], cs2)
  let (expV, cs4) := match cs3 with
    | e :: r =>
      if e = 'e' ∨ e = 'E' then
        let (negExp, r1) := expSign r
        let ds := r1.takeWhile Char.isDigit
        if ds.isEmpty then ((0 : Int), cs3)
        else
          let mag : Int := digitsToNat ds
          (if negExp then -mag else mag, r1.drop ds.length)
      else ((0 : Int), cs3)
    | [] => ((0 : Int), cs3)
  let mant : Int := (if neg then -1 else 1) * (digitsToNat (intDs ++ fracDs) : Int)
  let scale : Int := expV - (fracDs.length : Int)
  (if scale = 0 then (mant : Rat) else (mant : Rat) * (10 : Rat) ^ scale, cs4)

/-- JSON number parser, per the scanner's regex
`(-?(?:0|[1-9]\d*))(\.\d+)?([eE][-+]?\d+)?`: the integer part is `0` or
has no leading zero; fraction and exponent are taken only when complete.
The numeric value is exact (`Rat`). -/
def parseJsonNum (cs : List Char) : Option (Rat × List Char) :=
  let neg := if cs.headD ' ' = '-' then true else false
  let cs1 := if neg then cs.tail else cs
  match cs1 with
  | c :: rest =>
    if c = '0' then some (jsonNumTail neg [c] rest)
    else if c.isDigit then
      let ds := rest.takeWhile Char.isDigit
      some (jsonNumTail neg (c :: ds) (rest.drop ds.length))
    else none
  | [] => none

/-- Prepend a member to the already-deduplicated members parsed after
it, with Python `dict` duplicate-key semantics: a later binding of the
same key wins in value, while the earlier occurrence keeps its
position. -/
def consMember (k : String) (v : JVal) (ms : List (String × JVal)) :
    List (String × JVal) :=
  match ms.lookup k with
  | some v' => (k, v') :: ms.filter fun kv => kv.1 ≠ k
  | none => (k, v) :: ms

mutual
/-- Model of `scan_once`: parse one JSON value starting exactly at the current
position (no leading whitespace). -/
def parseJsonVal : Nat → List Char → Option (JVal × List Char)
  | 0, _ => none
  | fuel + 1, cs =>
    match cs with
    | 'n' :: 'u' :: 'l' :: 'l' :: r => some (.null, r)
    | 't' :: 'r' :: 'u' :: 'e' :: r => some (.bool true, r)
    | 'f' :: 'a' :: 'l' :: 's' :: 'e' :: r => some (.bool false, r)
    | '"' :: r =>
      match parseJsonStr [] r with
      | some (s, r') => some (.str s, r')
      | none => none
    | '[' :: r =>
      (match skipJsonWs r with
      | ']' :: r' => some (.arr [], r')
      | r' =>
        match parseJsonArr fuel r' with
        | some (es, r'') => some (.arr es, r'')
        | none => none)
    | '{' :: r =>
      (match skipJsonWs r with
      | '}' :: r' => some (.obj [], r')
      | r' =>
        match parseJsonObj fuel r' with
        | some (ms, r'') => some (.obj ms, r'')
        | none => none)
    | c :: _ =>
      if c = '-' ∨ c.isDigit then
        match parseJsonNum cs with
        | some (n, r') => some (.num n, r')
        | none => none
      else none
    | [] => none

/-- One-or-more comma-separated array elements up to `]`. -/
def parseJsonArr : Nat → List Char → Option (List JVal × List Char)
  | 0, _ => none
  | fuel + 1, cs =>
    match parseJsonVal fuel cs with
    | none => none
    | some (v, r) =>
      match skipJsonWs r with
      | ',' :: r' =>
        match parseJsonArr fuel (skipJsonWs r') with
        | some (vs, r'') => some (v :: vs, r'')
        | none => none
      | ']' :: r' => some ([v], r')
      | _ => none

/-- One-or-more `"key": value` members up to `\x7d`. -/
def parseJsonObj : Nat → List Char → Option (List (String × JVal) × List Char)
  | 0, _ => none
  | fuel + 1, cs =>
    match cs with
    | '"' :: r =>
      (match parseJsonStr [] r with
      | none => none
      | some (k, r1) =>
        match skipJsonWs r1 with
        | ':' :: r2 =>
          (match parseJsonVal fuel (skipJsonWs r2) with
          | none => none
          | some (v, r3) =>
            match skipJsonWs r3 with
            | ',' :: r4 =>
              (match parseJsonObj fuel (skipJsonWs r4) with
              | some (ms, r5) => some (consMember k v ms, r5)
              | none => none)
            | '}' :: r4 => some ([(k, v)], r4)
            | _ => none)
        | _ => none)
    | _ => none
end

/-- Model of `json.JSONDecoder().raw_decode` on the remaining input: one decoded
value and the remainder right after it. -/
def rawDecode (cs : List Char) : Option (JVal × List Char) :=
  parseJsonVal (cs.length + 1) cs

/-- The character-by-character scan of `extract_json_blobs`
(scrape_data.py:247-261): at a position opening an object or array,
attempt a decode; on success record the value and resume past the
consumed substring, on failure (or on any other character) advance one
character.  Fuel starts at the input length; every step consumes at
least one character. -/
def scanBlobsGo : Nat → List Char → List JVal
  | 0, _ => []
  | _ + 1, [] => []
  | fuel + 1, c :: rest =>
    if c = '{' ∨ c = '[' then
      match rawDecode (c :: rest) with
      | some (v, rem) => v :: scanBlobsGo fuel rem
      | none => scanBlobsGo fuel rest
    else scanBlobsGo fuel rest

/-- Model of `extract_json_blobs` (scrape_data.py:247-261). -/
def extract_json_blobs (html : String) : List JVal :=
  scanBlobsGo html.length html.data

/-! ### `try_fetch_reviews_api` (tier 1) -/

/-- A reviews-API response: HTTP status and the result of `r.json()`
(`none` models a 200 body that is not valid JSON, where `r.json()`
raises). -/
structure ApiResp where
  status : Nat
  json : Option JVal

/-- A normalized review record.  Tier-1 records carry `rating` and
`author` fields (possibly `None`-valued); tier-2 records do not have
them at all. -/
structure Review where
  product_id : JVal
  date : String
  text : String
  rating : Option JVal
  author : Option JVal
  source : String

/-- The item-list discovery of scrape_data.py:201-209 over the candidate
keys: the first key bound to a list wins; used when the top level is an
object. -/
def getItemsKeys (o : List (String × JVal)) : List String → Option (List JVal)
  | [] => none
  | k :: ks =>
    match jget o k with
    | .arr v => some v
    | _ => getItemsKeys o ks

/-- Item-list discovery: object top level consults
`reviews`/`items`/`results`/`data`; a list top level is itself the
items. -/
def getItems : JVal → Option (List JVal)
  | .obj o => getItemsKeys o ["reviews", "items", "results", "data"]
  | .arr l => some l
  | _ => none

/-- Normalization of one API item (scrape_data.py:215-239): non-dicts
are skipped; empty extracted text or a missing/off-2023 date drops the
item; a truthy non-string text raises (`Except.error`). -/
def apiItemReview (oracle : String → Option Rat) (it : JVal) :
    Except Unit (Option Review) :=
  match it with
  | .obj o =>
    (match pyStripStr (pyOrChain
        [jget o "text", jget o "body", jget o "comment", jget o "review", .str ""]) with
    | .error e => .error e
    | .ok text =>
      if text = "" then .ok none
      else
        match keepOnly2023 (parseDate oracle (pyOrChain
            [jget o "date", jget o "created_at", jget o "createdAt", jget o "timestamp"])) with
        | none => .ok none
        | some dt => .ok (some
            { product_id := pyOrChain [jget o "product_id", jget o "productId"]
              date := isoDate (dateOf dt)
              text := text
              rating := some (pyOrChain [jget o "rating", jget o "stars", jget o "score"])
              author := some (pyOrChain [jget o "author", jget o "user", jget o "name"])
              source := "api" }))
  | _ => .ok none

/-- The per-page item fold of tier 1, appending kept reviews in item
order. -/
def processApiItems (oracle : String → Option Rat) :
    List JVal → List Review → Except Unit (List Review)
  | [], acc => .ok acc
  | it :: rest, acc =>
    match apiItemReview oracle it with
    | .error e => .error e
    | .ok none => processApiItems oracle rest acc
    | .ok (some rv) => processApiItems oracle rest (acc ++ [rv])

/-- The page loop of `try_fetch_reviews_api` (scrape_data.py:191-244):
a non-200 page immediately returns an empty list with that status
(discarding the accumulator); a 200 page with a non-JSON body returns an
empty list with the sentinel status 0; a missing or empty item list ends
pagination normally, returning what was collected with no status. -/
def fetchLoop (oracle : String → Option Rat) (env : Nat → ApiResp) :
    List Nat → List Review → Except Unit (List Review × Option Nat)
  | [], acc => .ok (acc, none)
  | p :: rest, acc =>
    let r := env p
    if r.status ≠ 200 then .ok (([] : List Review), some r.status)
    else
      match r.json with
      | none => .ok (([] : List Review), some 0)
      | some data =>
        match getItems data with
        | none => .ok (acc, none)
        | some items =>
          if items.isEmpty then .ok (acc, none)
          else
            match processApiItems oracle items acc with
            | .error e => .error e
            | .ok acc' => fetchLoop oracle env rest acc'

/-- Model of `try_fetch_reviews_api` (scrape_data.py:187-244). -/
def try_fetch_reviews_api (oracle : String → Option Rat) (env : Nat → ApiResp)
    (maxPages : Nat) : Except Unit (List Review × Option Nat) :=
  fetchLoop oracle env (List.range' 1 maxPages) []

/-! ### `scrape_reviews_from_product_pages` (tier 2) -/

/-- Model of `_normalize_review_obj` (scrape_data.py:264-275). -/
def normalize_review_obj (oracle : String → Option Rat)
    (r : List (String × JVal)) (product_id : String) :
    Except Unit (Option Review) :=
  match pyStripStr (pyOrChain
      [jget r "text", jget r "body", jget r "comment", jget r "review", .str ""]) with
  | .error e => .error e
  | .ok text =>
    if text = "" then .ok none
    else
      match keepOnly2023 (parseDate oracle (pyOrChain
          [jget r "date", jget r "created_at", jget r "createdAt", jget r "timestamp"])) with
      | none => .ok none
      | some dt => .ok (some
          { product_id := .str product_id
            date := isoDate (dateOf dt)
            text := text
            rating := none
            author := none
            source := "product_page" })

/-- The dedup key of the fallback tier: `(product_id, date, text)`. -/
abbrev ReviewKey := String × String × String

/-- Keep a normalized review unless its key was already seen
(scrape_data.py:301-305). -/
def addNormed (pid : String) (norm : Review)
    (st : List ReviewKey × List Review) : List ReviewKey × List Review :=
  let k : ReviewKey := (pid, norm.date, norm.text)
  if k ∈ st.1 then st else (k :: st.1, st.2 ++ [norm])

/-- Normalize a list of candidate review objects (non-dicts skipped),
threading the seen-set and output. -/
def normList (oracle : String → Option Rat) (pid : String) :
    List JVal → List ReviewKey × List Review →
    Except Unit (List ReviewKey × List Review)
  | [], st => .ok st
  | rr :: rest, st =>
    match rr with
    | .obj o =>
      (match normalize_review_obj oracle o pid with
      | .error e => .error e
      | .ok none => normList oracle pid rest st
      | .ok (some norm) => normList oracle pid rest (addNormed pid norm st))
    | _ => normList oracle pid rest st

/-- The dict branch of the blob inspection (scrape_data.py:293-305):
every candidate key bound to a list is processed (no early exit). -/
def processBlobDict (oracle : String → Option Rat) (pid : String)
    (o : List (String × JVal)) :
    List String → List ReviewKey × List Review →
    Except Unit (List ReviewKey × List Review)
  | [], st => .ok st
  | k :: ks, st =>
    match jget o k with
    | .arr v =>
      (match normList oracle pid v st with
      | .error e => .error e
      | .ok st' => processBlobDict oracle pid o ks st')
    | _ => processBlobDict oracle pid o ks st

/-- The review-shape probe of scrape_data.py:309-311: the sample has
some date-like key and some text-like key (key presence only). -/
def looksReviewShaped (sample : List (String × JVal)) : Bool :=
  (["date", "created_at", "createdAt", "timestamp"].any
      fun k => (sample.lookup k).isSome) &&
  (["text", "body", "comment", "review"].any
      fun k => (sample.lookup k).isSome)

/-- Inspect one decoded blob (scrape_data.py:292-320): the dict branch,
then the review-shaped-list branch. -/
def processBlob (oracle : String → Option Rat) (pid : String) (b : JVal)
    (st : List ReviewKey × List Review) :
    Except Unit (List ReviewKey × List Review) :=
  let afterDict :=
    match b with
    | .obj o => processBlobDict oracle pid o ["reviews", "review", "customerReviews"] st
    | _ => .ok st
  match afterDict with
  | .error e => .error e
  | .ok st1 =>
    match b with
    | .arr (first :: restL) =>
      (match first with
      | .obj sample =>
        if looksReviewShaped sample then normList oracle pid (first :: restL) st1
        else .ok st1
      | _ => .ok st1)
    | _ => .ok st1

/-- Fold `processBlob` over all decoded blobs of one product page. -/
def processBlobs (oracle : String → Option Rat) (pid : String) :
    List JVal → List ReviewKey × List Review →
    Except Unit (List ReviewKey × List Review)
  | [], st => .ok st
  | b :: rest, st =>
    match processBlob oracle pid b st with
    | .error e => .error e
    | .ok st' => processBlobs oracle pid rest st'

/-- The product loop of `scrape_reviews_from_product_pages`
(scrape_data.py:282-323): skip products without id or url; fetch each
detail page strictly (`raise_for_status` raises on 4xx/5xx, modelled as
`Except.error`); scan the body for blobs and process them. -/
def tier2Go (oracle : String → Option Rat) (pageEnv : String → Nat × String) :
    List RawProduct → List ReviewKey × List Review → Except Unit (List Review)
  | [], st => .ok st.2
  | p :: rest, st =>
    let pid := pyStrip p.id
    if pid = "" ∨ p.url = "" then tier2Go oracle pageEnv rest st
    else
      let (status, body) := pageEnv p.url
      if 400 ≤ status ∧ status < 600 then .error ()
      else
        match processBlobs oracle pid (extract_json_blobs body) st with
        | .error e => .error e
        | .ok st' => tier2Go oracle pageEnv rest st'

/-- Model of `scrape_reviews_from_product_pages` (scrape_data.py:278-325),
iterating over a bounded front segment of the raw product list. -/
def scrape_reviews_from_product_pages (oracle : String → Option Rat)
    (pageEnv : String → Nat × String) (products_raw : List RawProduct)
    (maxProducts : Nat) : Except Unit (List Review) :=
  tier2Go oracle pageEnv (products_raw.take maxProducts) ([], [])

/-- The review-assembly step of `main` (scrape_data.py:333-336): the
fallback tier runs exactly when tier 1 returned zero reviews, whatever
the accompanying status. -/
def collectReviews (oracle : String → Option Rat) (apiEnv : Nat → ApiResp)
    (pageEnv : String → Nat × String) (products_raw : List RawProduct)
    (maxPagesApi maxProducts : Nat) : Except Unit (List Review) :=
  match try_fetch_reviews_api oracle apiEnv maxPagesApi with
  | .error e => .error e
  | .ok (reviews, _apiErr) =>
    if reviews.isEmpty then
      scrape_reviews_from_product_pages oracle pageEnv products_raw maxProducts
    else .ok reviews

/-- The review invariant of the data model (§3): non-empty text and a
date that is the ISO rendering of a calendar date in the target
year 2023. -/
def ReviewGood (rv : Review) : Prop :=
  rv.text ≠ "" ∧ ∃ d : Date, rv.date = isoDate d ∧ d.year = 2023

/-! ## Helper lemmas -/

/-- Every `PRICE_RE` match contains a decimal point, so it is never the
empty string. -/
theorem priceMatchHere_shape {cs : List Char} {m r : List Char}
    (h : priceMatchHere cs = some (m, r)) :
    ∃ ds a b, m = ds ++ '.' :: a :: [b] := by
  unfold priceMatchHere at h
  dsimp only at h
  split at h
  · simp at h
  · split at h
    · split at h
      · split at h
        · rw [Option.some.injEq, Prod.mk.injEq] at h
          exact ⟨_, _, _, h.1.symm⟩
        · split at h
          · simp at h
          · rw [Option.some.injEq, Prod.mk.injEq] at h
            exact ⟨_, _, _, h.1.symm⟩
      · simp at h
    · simp at h

/-- Members of a `priceFindall` result are never the empty string. -/
theorem priceFindallGo_ne_empty :
    ∀ (fuel : Nat) (prev : Option Char) (cs : List Char),
      ∀ m ∈ priceFindallGo fuel prev cs, m ≠ ""
  | 0, _, _ => by simp [priceFindallGo]
  | _ + 1, _, [] => by simp [priceFindallGo]
  | fuel + 1, prev, c :: rest => by
    intro m hm
    unfold priceFindallGo at hm
    dsimp only at hm
    split at hm
    · split at hm
      · rename_i mm r hmatch
        rcases List.mem_cons.1 hm with h | h
        · obtain ⟨ds, a, b, rfl⟩ := priceMatchHere_shape hmatch
          subst h
          intro hcon
          have : ds ++ '.' :: a :: [b] = ([] : List Char) := congrArg String.data hcon
          simp at this
        · exact priceFindallGo_ne_empty fuel _ r m h
      · exact priceFindallGo_ne_empty fuel _ rest m hm
    · exact priceFindallGo_ne_empty fuel _ rest m hm

/-- An extracted price is never the empty string, hence always truthy in
Python. -/
theorem extract_price_ne_empty {t : String} {m : String}
    (h : extract_price t = some m) : m ≠ "" := by
  have hm : m ∈ priceFindall t := List.mem_of_mem_getLast? h
  exact priceFindallGo_ne_empty _ _ _ m hm

/-- The ancestor walk carrying an initial `None` equals a
first-match-by-level search over the first `fuel` levels. -/
theorem anchorPriceGo_none_eq :
    ∀ (ancs : List String) (fuel : Nat),
      anchorPriceGo fuel none ancs = (ancs.take fuel).findSome? extract_price
  | [], fuel => by cases fuel <;> simp [anchorPriceGo]
  | t :: rest, fuel => by
    cases fuel with
    | zero => simp [anchorPriceGo]
    | succ fuel =>
      cases hp : extract_price t with
      | none =>
        have := anchorPriceGo_none_eq rest fuel
        simp [anchorPriceGo, hp, truthyOptStr, List.findSome?_cons, this]
      | some m =>
        have hne : m ≠ "" := extract_price_ne_empty hp
        simp [anchorPriceGo, hp, truthyOptStr, hne, List.findSome?_cons]

/-! ## C6 -/

/-- C6: for every product anchor, the recorded price is determined by
walking at most 6 ancestor levels from the anchor and, at the first
(nearest) level whose collapsed text contains a `\d{1,5}\.\d{2}` match,
taking the last such match in that text; if no level within 6 has a
match, the price is absent. -/
theorem anchor_price_first_level_last_match (ancs : List String) :
    anchorPrice ancs = (ancs.take 6).findSome? (fun t => (priceFindall t).getLast?)
    ∧ (anchorPrice ancs = none ↔ ∀ t ∈ ancs.take 6, priceFindall t = []) := by
  have h1 : anchorPrice ancs = (ancs.take 6).findSome? extract_price :=
    anchorPriceGo_none_eq ancs 6
  constructor
  · exact h1
  · rw [h1, List.findSome?_eq_none_iff]
    constructor
    · intro h t ht
      have := h t ht
      rwa [extract_price, List.getLast?_eq_none_iff] at this
    · intro h t ht
      rw [extract_price, List.getLast?_eq_none_iff]
      exact h t ht

/-- Concrete instance of C6: an ancestor chain with no price match in
any of its (fewer than 6) levels records no price. -/
theorem anchor_price_witness : anchorPrice ["no price here"] = none :=
  (anchor_price_first_level_last_match ["no price here"]).2.mpr (by decide)

/-! ## C8 -/

/-- C8: the date normalizer treats numeric epochs above 10¹⁰ as
milliseconds, so seconds and milliseconds spellings of the same instant
agree (`1672531200` vs `1672531200000`); and for a string the permissive
parser fails on, it returns none (and, being a total function into
`Option`, never raises). -/
theorem parse_date_millis_and_failure (oracle : String → Option Rat) :
    parseDate oracle (.num 1672531200) = some 1672531200
    ∧ parseDate oracle (.num 1672531200000) = some 1672531200
    ∧ (∀ n : Rat, 10000000000 < n →
        parseDate oracle (.num n) = fromtimestampOpt (n / 1000))
    ∧ (∀ s : String, oracle (pyStrip s) = none →
        parseDate oracle (.str s) = none) := by
  refine ⟨?_, ?_, ?_, ?_⟩
  · show (if (10000000000 : Rat) < 1672531200 then fromtimestampOpt (1672531200 / 1000)
      else fromtimestampOpt 1672531200) = some 1672531200
    norm_num [fromtimestampOpt]
  · show (if (10000000000 : Rat) < 1672531200000 then fromtimestampOpt (1672531200000 / 1000)
      else fromtimestampOpt 1672531200000) = some 1672531200
    norm_num [fromtimestampOpt]
  · intro n hn
    show fromtimestampOpt (if (10000000000 : Rat) < n then n / 1000 else n) =
      fromtimestampOpt (n / 1000)
    rw [if_pos hn]
  · intro s hs
    show (if pyStrip (pyStr (.str s)) = "" then none
      else match oracle (pyStrip (pyStr (.str s))) with
        | none => none
        | some dt => some dt) = none
    by_cases h : pyStrip s = ""
    · simp [pyStr, h]
    · simp [pyStr, h, hs]

/-- Witness for C8 at concrete inputs: an oracle that always fails, the
string "not a date", and the two concrete epochs. -/
theorem parse_date_witness :
    parseDate (fun _ => none) (.str "not a date") = none
    ∧ parseDate (fun _ => none) (.num 1672531200) = some 1672531200 :=
  ⟨(parse_date_millis_and_failure (fun _ => none)).2.2.2 "not a date" rfl,
   (parse_date_millis_and_failure (fun _ => none)).1⟩

/-! ## C3 -/

/-- The dedup loop is the first-occurrence filter followed by record
normalization. -/
theorem dedupeGo_eq_firstOccGo :
    ∀ (l : List RawProduct) (seen : List (String × String)),
      dedupeGo seen l = (firstOccGo seen l).map mkDeduped
  | [], _ => rfl
  | p :: rest, seen => by
    simp only [dedupeGo, firstOccGo]
    split
    · exact dedupeGo_eq_firstOccGo rest seen
    · simp [dedupeGo_eq_firstOccGo rest (prodKey p :: seen)]

/-- The keys of the first-occurrence filter are pairwise distinct and
disjoint from the already-seen keys. -/
theorem firstOccGo_keys_nodup :
    ∀ (l : List RawProduct) (seen : List (String × String)),
      ((firstOccGo seen l).map prodKey).Nodup
      ∧ ∀ k ∈ (firstOccGo seen l).map prodKey, k ∉ seen
  | [], _ => by simp [firstOccGo]
  | p :: rest, seen => by
    simp only [firstOccGo]
    split
    · exact firstOccGo_keys_nodup rest seen
    · rename_i hmem
      obtain ⟨ih1, ih2⟩ := firstOccGo_keys_nodup rest (prodKey p :: seen)
      refine ⟨List.nodup_cons.2 ⟨fun hk => ?_, ih1⟩, ?_⟩
      · exact ih2 _ hk (List.mem_cons_self _ _)
      · intro k hk
        rcases List.mem_cons.1 hk with rfl | hk'
        · exact hmem
        · exact fun hseen => ih2 _ hk' (List.mem_cons_of_mem _ hseen)

/-- Every input key group is represented in the first-occurrence
filter (or was already seen). -/
theorem firstOccGo_covers :
    ∀ (l : List RawProduct) (seen : List (String × String)) (p : RawProduct),
      p ∈ l → prodKey p ∈ seen ∨
        ∃ q ∈ firstOccGo seen l, prodKey q = prodKey p
  | [], _, _, h => by simp at h
  | x :: rest, seen, p, h => by
    rcases List.mem_cons.1 h with rfl | h'
    · simp only [firstOccGo]
      split
      · exact .inl (by assumption)
      · exact .inr ⟨p, List.mem_cons_self _ _, rfl⟩
    · simp only [firstOccGo]
      split
      · rename_i hmem
        rcases firstOccGo_covers rest seen p h' with hk | ⟨q, hq, hqk⟩
        · exact .inl hk
        · exact .inr ⟨q, hq, hqk⟩
      · rcases firstOccGo_covers rest (prodKey x :: seen) p h' with hk | ⟨q, hq, hqk⟩
        · rcases List.mem_cons.1 hk with heq | hseen
          · exact .inr ⟨x, List.mem_cons_self _ _, heq.symm⟩
          · exact .inl hseen
        · exact .inr ⟨q, List.mem_cons_of_mem _ hq, hqk⟩

/-- C3: `dedupe_products_by_name_price` keeps exactly one product per
(lowercased trimmed name, trimmed price) group — the first occurrence in
input order, carrying that occurrence's id and url with normalized name
and price and the category dropped — and the output preserves
first-seen input order. -/
theorem dedupe_first_occurrence_per_key (l : List RawProduct) :
    dedupe_products_by_name_price l = (firstOccurrences l).map mkDeduped
    ∧ ((dedupe_products_by_name_price l).map fun q => (pyLower q.name, q.price)).Nodup
    ∧ ∀ p ∈ l, ∃ q ∈ dedupe_products_by_name_price l,
        (pyLower q.name, q.price) = prodKey p := by
  have heq : dedupe_products_by_name_price l = (firstOccurrences l).map mkDeduped :=
    dedupeGo_eq_firstOccGo l []
  have hout : ∀ p : RawProduct,
      (pyLower (mkDeduped p).name, (mkDeduped p).price) = prodKey p := fun p => rfl
  refine ⟨heq, ?_, ?_⟩
  · rw [heq, List.map_map]
    have : ((fun q : Product => (pyLower q.name, q.price)) ∘ mkDeduped) = prodKey := by
      funext p; exact hout p
    rw [this]
    exact (firstOccGo_keys_nodup l []).1
  · intro p hp
    rcases firstOccGo_covers l [] p hp with hk | ⟨q, hq, hqk⟩
    · simp at hk
    · refine ⟨mkDeduped q, ?_, ?_⟩
      · rw [heq]
        exact List.mem_map_of_mem mkDeduped hq
      · rw [hout q, hqk]

/-- Witness for C3: two raw products with the same key (up to case and
whitespace) collapse to the first one's record. -/
theorem dedupe_witness :
    ∃ q ∈ dedupe_products_by_name_price
        [⟨"1", "Alpha", some "9.99", "u1", "apparel"⟩,
         ⟨"2", " alpha ", some "9.99", "u2", "consumables"⟩],
      (pyLower q.name, q.price) =
        prodKey ⟨"2", " alpha ", some "9.99", "u2", "consumables"⟩ :=
  (dedupe_first_occurrence_per_key _).2.2 _ (by simp)

/-! ## C9 -/

/-- The newly kept texts of one testimonial page form a deduplicated,
unseen-only, order-preserving selection of the page's candidates, and
afterwards the seen set holds exactly the old entries and the page's
candidates. -/
theorem addNew_spec :
    ∀ (cands seen : List String),
      (addNew cands seen).1.Sublist cands
      ∧ (addNew cands seen).1.Nodup
      ∧ (∀ t ∈ (addNew cands seen).1, t ∉ seen)
      ∧ (∀ t, t ∈ (addNew cands seen).2 ↔ t ∈ cands ∨ t ∈ seen)
  | [], seen => by simp [addNew]
  | t :: ts, seen => by
    by_cases ht : t ∈ seen
    · obtain ⟨ih1, ih2, ih3, ih4⟩ := addNew_spec ts seen
      rw [addNew, if_pos ht]
      refine ⟨ih1.cons t, ih2, ih3, fun u => ?_⟩
      rw [ih4 u]
      constructor
      · rintro (h | h)
        · exact .inl (List.mem_cons_of_mem _ h)
        · exact .inr h
      · rintro (h | h)
        · rcases List.mem_cons.1 h with rfl | h'
          · exact .inr ht
          · exact .inl h'
        · exact .inr h
    · obtain ⟨ih1, ih2, ih3, ih4⟩ := addNew_spec ts (t :: seen)
      rw [addNew, if_neg ht]
      refine ⟨?_, ?_, ?_, ?_⟩
      · exact ih1.cons₂ t
      · exact List.nodup_cons.2 ⟨fun h => ih3 t h (List.mem_cons_self _ _), ih2⟩
      · intro u hu
        rcases List.mem_cons.1 hu with rfl | h'
        · exact ht
        · exact fun hs => ih3 u h' (List.mem_cons_of_mem _ hs)
      · intro u
        rw [ih4 u]
        constructor
        · rintro (h | h)
          · exact .inl (List.mem_cons_of_mem _ h)
          · rcases List.mem_cons.1 h with rfl | h'
            · exact .inl (List.mem_cons_self _ _)
            · exact .inr h'
        · rintro (h | h)
          · rcases List.mem_cons.1 h with rfl | h'
            · exact .inr (List.mem_cons_self _ _)
            · exact .inl h'
          · exact .inr (List.mem_cons_of_mem _ h)

/-- The testimonial page loop keeps only ≥20-character candidates, never
repeats a text (nor one already seen), and emits a subsequence of the
pages' candidate streams in discovery order. -/
theorem testimonialsGo_spec (env : Nat → TResp × TResp) :
    ∀ (pages : List Nat) (seen : List String),
      (∀ tm ∈ testimonialsGo env pages seen, 20 ≤ tm.comment.length)
      ∧ ((testimonialsGo env pages seen).map Testimonial.comment).Nodup
      ∧ (∀ t ∈ (testimonialsGo env pages seen).map Testimonial.comment, t ∉ seen)
      ∧ ((testimonialsGo env pages seen).map Testimonial.comment).Sublist
          (pages.flatMap fun p => candidatesOf (effResp (env p)))
  | [], seen => by simp [testimonialsGo]
  | p :: rest, seen => by
    rw [testimonialsGo]
    split
    · simp
    · obtain ⟨ha1, ha2, ha3, ha4⟩ := addNew_spec (candidatesOf (effResp (env p))) seen
      set new := (addNew (candidatesOf (effResp (env p))) seen).1 with hnew
      set seen' := (addNew (candidatesOf (effResp (env p))) seen).2 with hseen'
      have hnewlen : ∀ t ∈ new, 20 ≤ t.length := by
        intro t ht
        have := ha1.mem ht
        rw [candidatesOf, List.mem_filter] at this
        have := this.2
        simp only [Bool.and_eq_true, decide_eq_true_eq] at this
        exact this.2
      obtain ⟨ih1, ih2, ih3, ih4⟩ := testimonialsGo_spec env rest seen'
      have hmore : ∀ (l : List Testimonial),
          l = (if new.isEmpty then [] else testimonialsGo env rest seen') →
          (∀ tm ∈ l, 20 ≤ tm.comment.length)
          ∧ (l.map Testimonial.comment).Nodup
          ∧ (∀ t ∈ l.map Testimonial.comment, t ∉ seen')
          ∧ (l.map Testimonial.comment).Sublist
              (rest.flatMap fun q => candidatesOf (effResp (env q))) := by
        intro l hl
        by_cases hemp : new.isEmpty
        · rw [hl, if_pos hemp]
          simp
        · rw [hl, if_neg hemp]
          exact ⟨ih1, ih2, ih3, ih4⟩
      obtain ⟨hm1, hm2, hm3, hm4⟩ := hmore _ rfl
      have hmap : ((new.map fun t => Testimonial.mk t) ++
            (if new.isEmpty then [] else testimonialsGo env rest seen')).map
            Testimonial.comment
          = new ++ ((if new.isEmpty then [] else testimonialsGo env rest seen').map
            Testimonial.comment) := by
        rw [List.map_append, List.map_map]
        congr 1
        show List.map (fun t => t) new = new
        exact List.map_id' new
      refine ⟨?_, ?_, ?_, ?_⟩
      · intro tm htm
        rcases List.mem_append.1 htm with h | h
        · obtain ⟨t, ht, rfl⟩ := List.mem_map.1 h
          exact hnewlen t ht
        · exact (hmore _ rfl).1 tm h
      · rw [hmap, List.nodup_append]
        refine ⟨ha2, hm2, ?_⟩
        intro t htn htm
        exact hm3 t htm ((ha4 t).2 (.inl (ha1.mem htn)))
      · intro t htm
        rw [hmap] at htm
        rcases List.mem_append.1 htm with h | h
        · exact ha3 t h
        · exact fun hs => hm3 t h ((ha4 t).2 (.inr hs))
      · rw [hmap, List.flatMap_cons]
        exact ha1.append hm4

/-- C9: every testimonial kept by the collector has text of length at
least 20; no two kept testimonials have identical text (dedup by exact
equality across the whole run); and the kept texts appear in discovery
order (a subsequence of the candidate stream over the paginated run). -/
theorem testimonials_kept_invariant (env : Nat → TResp × TResp) (maxPages : Nat) :
    (∀ tm ∈ scrape_testimonials env maxPages, 20 ≤ tm.comment.length)
    ∧ ((scrape_testimonials env maxPages).map Testimonial.comment).Nodup
    ∧ ((scrape_testimonials env maxPages).map Testimonial.comment).Sublist
        ((List.range' 1 maxPages).flatMap fun p => candidatesOf (effResp (env p))) := by
  obtain ⟨h1, h2, _, h4⟩ := testimonialsGo_spec env (List.range' 1 maxPages) []
  exact ⟨h1, h2, h4⟩

/-- Witness for C9 on a concrete two-page run: the long candidate is
kept (with its ≥20 length), the short one dropped. -/
theorem testimonials_witness :
    20 ≤ (Testimonial.mk "This testimonial is long enough to keep.").comment.length :=
  (testimonials_kept_invariant
      (fun _ => (⟨200, ["This testimonial is long enough to keep.", "too short"]⟩,
                 ⟨0, []⟩)) 3).1
    ⟨"This testimonial is long enough to keep."⟩ (by decide)

/-! ## C5 / C4 -/

/-- Per-anchor loop facts: recorded products carry previously-unseen,
pairwise-distinct ids; afterwards the seen set is exactly the old one
plus the recorded ids; and `page_items` counts the recorded products. -/
theorem processAnchors_spec (cat : String) :
    ∀ (anchors : List Anchor) (seen : List String),
      (∀ q ∈ (processAnchors cat seen anchors).1, q.id ∉ seen)
      ∧ ((processAnchors cat seen anchors).1.map RawProduct.id).Nodup
      ∧ (∀ t, t ∈ (processAnchors cat seen anchors).2.1 ↔
          t ∈ (processAnchors cat seen anchors).1.map RawProduct.id ∨ t ∈ seen)
      ∧ (processAnchors cat seen anchors).1.length = (processAnchors cat seen anchors).2.2
  | [], seen => by simp [processAnchors]
  | a :: rest, seen => by
    rw [processAnchors]
    cases hm : productIdSearch (pyStrip a.href) with
    | none => exact processAnchors_spec cat rest seen
    | some pid =>
      dsimp only
      by_cases hseen : pid ∈ seen
      · rw [if_pos hseen]
        exact processAnchors_spec cat rest seen
      · rw [if_neg hseen]
        by_cases htext : a.text = ""
        · rw [if_pos htext]
          exact processAnchors_spec cat rest seen
        · rw [if_neg htext]
          obtain ⟨ih1, ih2, ih3, ih4⟩ := processAnchors_spec cat rest (pid :: seen)
          rcases hrec : processAnchors cat (pid :: seen) rest with ⟨ps, s', n⟩
          rw [hrec] at ih1 ih2 ih3 ih4
          dsimp only at ih1 ih2 ih3 ih4 ⊢
          refine ⟨?_, ?_, ?_, by simpa using ih4⟩
          · intro q hq
            rcases List.mem_cons.1 hq with rfl | hq'
            · exact hseen
            · exact fun hs => ih1 q hq' (List.mem_cons_of_mem _ hs)
          · rw [List.map_cons, List.nodup_cons]
            refine ⟨?_, ih2⟩
            intro hmem
            obtain ⟨q, hq, hqid⟩ := List.mem_map.1 hmem
            exact ih1 q hq (hqid ▸ List.mem_cons_self _ _)
          · intro t
            rw [ih3 t, List.map_cons]
            constructor
            · rintro (h | h)
              · exact .inl (List.mem_cons_of_mem _ h)
              · rcases List.mem_cons.1 h with rfl | h'
                · exact .inl (List.mem_cons_self _ _)
                · exact .inr h'
            · rintro (h | h)
              · rcases List.mem_cons.1 h with rfl | h'
                · exact .inr (List.mem_cons_self _ _)
                · exact .inl h'
              · exact .inr (List.mem_cons_of_mem _ h)

/-- Pagination-trace facts for one category: at most one count per
listed page; a non-empty page list yields at least one fetch; every
count before the last is non-zero (pagination continued exactly while
pages contributed new items); and if pagination stopped before the page
budget, the stopping fetch contributed zero items. -/
theorem scrapeCatGo_counts (pagesEnv : Nat → List Anchor) (cat : String) :
    ∀ (pages : List Nat) (seen : List String),
      ((scrapeCatGo pagesEnv cat pages seen).2.2).length ≤ pages.length
      ∧ (pages ≠ [] → (scrapeCatGo pagesEnv cat pages seen).2.2 ≠ [])
      ∧ (∀ i (h : i + 1 < ((scrapeCatGo pagesEnv cat pages seen).2.2).length),
          ((scrapeCatGo pagesEnv cat pages seen).2.2).get ⟨i, Nat.lt_of_succ_lt h⟩ ≠ 0)
      ∧ (((scrapeCatGo pagesEnv cat pages seen).2.2).length < pages.length →
          ((scrapeCatGo pagesEnv cat pages seen).2.2).getLast? = some 0)
  | [], seen => by simp [scrapeCatGo]
  | p :: rest, seen => by
    rw [scrapeCatGo]
    rcases hpa : processAnchors cat seen (pagesEnv p) with ⟨ps, s', n⟩
    dsimp only
    by_cases hn : n = 0
    · subst hn
      rw [if_pos rfl]
      refine ⟨by simp, fun _ => by simp, ?_, fun _ => rfl⟩
      intro i h
      simp at h
    · rw [if_neg hn]
      obtain ⟨ih1, ih2, ih3, ih4⟩ := scrapeCatGo_counts pagesEnv cat rest s'
      rcases hsc : scrapeCatGo pagesEnv cat rest s' with ⟨qs, sF, counts⟩
      rw [hsc] at ih1 ih2 ih3 ih4
      dsimp only at ih1 ih2 ih3 ih4 ⊢
      refine ⟨by simpa using ih1, fun _ => by simp, ?_, ?_⟩
      · intro i h
        match i with
        | 0 => simpa using hn
        | i + 1 =>
          have h' : i + 1 < counts.length := by simpa using h
          simpa using ih3 i h'
      · intro hlt
        have hlt' : counts.length < rest.length := by simpa using hlt
        cases hcounts : counts with
        | nil =>
          exfalso
          have hre : rest ≠ [] := by
            intro hre
            rw [hre] at hlt'
            simp [hcounts] at hlt'
          exact ih2 hre hcounts
        | cons c cs =>
          rw [hcounts] at ih4
          rw [List.getLast?_cons_cons]
          exact ih4 (hcounts ▸ hlt')

/-- C5: for each category, pages are fetched sequentially from page 1
and the category stops the first time a fetched page contributes zero
new product records, with `max_pages` a hard upper bound on fetches; on
the concrete scenario of the claim (a page with 3 anchors of which 2
carry distinct ids, followed by an anchor-less page) exactly 2 raw
products are recorded and the category ends after exactly 2 fetches. -/
theorem pagination_terminates_on_zero_new (pagesEnv : Nat → List Anchor)
    (cat : String) (maxPages : Nat) (seen : List String) :
    (((scrapeCatGo pagesEnv cat (List.range' 1 maxPages) seen).2.2).length ≤ maxPages
    ∧ (∀ i (h : i + 1 < ((scrapeCatGo pagesEnv cat (List.range' 1 maxPages) seen).2.2).length),
        ((scrapeCatGo pagesEnv cat (List.range' 1 maxPages) seen).2.2).get
          ⟨i, Nat.lt_of_succ_lt h⟩ ≠ 0)
    ∧ (((scrapeCatGo pagesEnv cat (List.range' 1 maxPages) seen).2.2).length < maxPages →
        ((scrapeCatGo pagesEnv cat (List.range' 1 maxPages) seen).2.2).getLast? = some 0))
    ∧ scrapeCatGo
        (fun p => if p = 1 then
          [⟨"/product/1", "Alpha", []⟩, ⟨"/product/2", "Beta", []⟩,
           ⟨"/product/1", "Alpha again", []⟩]
         else [])
        "apparel" (List.range' 1 200) []
      = ([⟨"1", "Alpha", none, "https://web-scraping.dev/product/1", "apparel"⟩,
          ⟨"2", "Beta", none, "https://web-scraping.dev/product/2", "apparel"⟩],
         ["2", "1"], [2, 0]) := by
  obtain ⟨h1, -, h3, h4⟩ := scrapeCatGo_counts pagesEnv cat (List.range' 1 maxPages) seen
  refine ⟨⟨by simpa using h1, h3, ?_⟩, by decide⟩
  intro hlt
  exact h4 (by simpa using hlt)

/-- Witness for C5: on the concrete scenario the trace has length 2
(within the 200-page bound), and the stopping entry is a zero. -/
theorem pagination_witness :
    ((scrapeCatGo
        (fun p => if p = 1 then
          [⟨"/product/1", "Alpha", []⟩, ⟨"/product/2", "Beta", []⟩,
           ⟨"/product/1", "Alpha again", []⟩]
         else [])
        "apparel" (List.range' 1 200) []).2.2).getLast? = some 0 :=
  ((pagination_terminates_on_zero_new
      (fun p => if p = 1 then
        [⟨"/product/1", "Alpha", []⟩, ⟨"/product/2", "Beta", []⟩,
         ⟨"/product/1", "Alpha again", []⟩]
       else [])
      "apparel" 200 []).1).2.2 (by decide)

/-- Category-scan facts propagated through the category fold: products
carry unseen pairwise-distinct ids, and the final seen set extends the
initial one by exactly the recorded ids. -/
theorem scrapeCatGo_ids (pagesEnv : Nat → List Anchor) (cat : String) :
    ∀ (pages : List Nat) (seen : List String),
      (∀ q ∈ (scrapeCatGo pagesEnv cat pages seen).1, q.id ∉ seen)
      ∧ ((scrapeCatGo pagesEnv cat pages seen).1.map RawProduct.id).Nodup
      ∧ (∀ t, t ∈ (scrapeCatGo pagesEnv cat pages seen).2.1 ↔
          t ∈ (scrapeCatGo pagesEnv cat pages seen).1.map RawProduct.id ∨ t ∈ seen)
  | [], seen => by simp [scrapeCatGo]
  | p :: rest, seen => by
    rw [scrapeCatGo]
    obtain ⟨hp1, hp2, hp3, hp4⟩ := processAnchors_spec cat (pagesEnv p) seen
    rcases hpa : processAnchors cat seen (pagesEnv p) with ⟨ps, s', n⟩
    rw [hpa] at hp1 hp2 hp3 hp4
    dsimp only at hp1 hp2 hp3 hp4 ⊢
    by_cases hn : n = 0
    · subst hn
      rw [if_pos rfl]
      exact ⟨hp1, hp2, hp3⟩
    · rw [if_neg hn]
      obtain ⟨ih1, ih2, ih3⟩ := scrapeCatGo_ids pagesEnv cat rest s'
      rcases hsc : scrapeCatGo pagesEnv cat rest s' with ⟨qs, sF, counts⟩
      rw [hsc] at ih1 ih2 ih3
      dsimp only at ih1 ih2 ih3 ⊢
      have hqs_not_ps : ∀ q ∈ qs, q.id ∉ ps.map RawProduct.id := by
        intro q hq hmem
        exact ih1 q hq ((hp3 q.id).2 (.inl hmem))
      refine ⟨?_, ?_, ?_⟩
      · intro q hq
        rcases List.mem_append.1 hq with h | h
        · exact hp1 q h
        · exact fun hs => ih1 q h ((hp3 q.id).2 (.inr hs))
      · rw [List.map_append, List.nodup_append]
        refine ⟨hp2, ih2, ?_⟩
        intro t htp htq
        obtain ⟨q, hq, rfl⟩ := List.mem_map.1 htq
        exact hqs_not_ps q hq htp
      · intro t
        rw [ih3 t, hp3 t, List.map_append, List.mem_append]
        tauto

/-- The run-global `seen_ids` set makes all raw product ids of a run
pairwise distinct, across categories. -/
theorem scrapeAllGo_ids (env : String → Nat → List Anchor) (maxPages : Nat) :
    ∀ (cats : List String) (seen : List String),
      (∀ q ∈ (scrapeAllGo env maxPages cats seen).1, q.id ∉ seen)
      ∧ ((scrapeAllGo env maxPages cats seen).1.map RawProduct.id).Nodup
  | [], seen => by simp [scrapeAllGo]
  | c :: cs, seen => by
    rw [scrapeAllGo]
    obtain ⟨hc1, hc2, hc3⟩ := scrapeCatGo_ids (env c) c (List.range' 1 maxPages) seen
    rcases hsc : scrapeCatGo (env c) c (List.range' 1 maxPages) seen with ⟨ps, s', counts⟩
    rw [hsc] at hc1 hc2 hc3
    dsimp only at hc1 hc2 hc3 ⊢
    obtain ⟨ih1, ih2⟩ := scrapeAllGo_ids env maxPages cs s'
    rcases hsa : scrapeAllGo env maxPages cs s' with ⟨qs, traces⟩
    rw [hsa] at ih1 ih2
    dsimp only at ih1 ih2 ⊢
    refine ⟨?_, ?_⟩
    · intro q hq
      rcases List.mem_append.1 hq with h | h
      · exact hc1 q h
      · exact fun hs => ih1 q h ((hc3 q.id).2 (.inr hs))
    · rw [List.map_append, List.nodup_append]
      refine ⟨hc2, ih2, ?_⟩
      intro t htp htq
      obtain ⟨q, hq, rfl⟩ := List.mem_map.1 htq
      exact ih1 q hq ((hc3 q.id).2 (.inl htp))

/-- Counterexample to C4 as stated: a listing exposing product id 7
under both categories (with non-empty anchor text each time) yields a
single raw product, tagged with the first category only — the
consumables scan records nothing, because `seen_ids` is shared across
the category loop. -/
theorem product_id_dedup_counterexample :
    (scrape_products
        (fun cat page => if page = 1 then
          [⟨"/product/7", if cat = "apparel" then "Alpha" else "Beta", []⟩]
         else [])
        2).1
      = [⟨"7", "Alpha", none, "https://web-scraping.dev/product/7", "apparel"⟩]
    ∧ productIdSearch (pyStrip "/product/7") = some "7" := by decide

/-- C4 amended: product-id deduplication during listing traversal is
scoped to the whole run, not to one category's scan — every raw product
of a run has a distinct id, so an id exposed under two categories is
emitted only under the category scanned first. -/
theorem product_id_dedup_run_global (env : String → Nat → List Anchor)
    (maxPages : Nat) :
    (((scrape_products env maxPages).1).map RawProduct.id).Nodup :=
  (scrapeAllGo_ids env maxPages ["apparel", "consumables"] []).2

/-! ## C7 -/

/-- C7: the blob scanner records, at each position opening an object or
array where a balanced decode succeeds, the decoded value, resuming past
the consumed substring; on a failed attempt (or any other character) it
advances one character without terminating; on the claim's concrete
input it returns exactly the object and the array, in order. -/
theorem json_blob_scan (fuel : Nat) :
    extract_json_blobs "prefix \x7b\"a\":1\x7d middle [1,2] suffix"
      = [.obj [("a", .num 1)], .arr [.num 1, .num 2]]
    ∧ (∀ (c : Char) (rest : List Char) (v : JVal) (rem : List Char),
        (c = '{' ∨ c = '[') → rawDecode (c :: rest) = some (v, rem) →
        scanBlobsGo (fuel + 1) (c :: rest) = v :: scanBlobsGo fuel rem)
    ∧ (∀ (c : Char) (rest : List Char),
        ((¬(c = '{' ∨ c = '[')) ∨ rawDecode (c :: rest) = none) →
        scanBlobsGo (fuel + 1) (c :: rest) = scanBlobsGo fuel rest) := by
  refine ⟨rfl, ?_, ?_⟩
  · intro c rest v rem hopen hdec
    rw [scanBlobsGo, if_pos hopen, hdec]
  · intro c rest h
    rcases h with h | h
    · rw [scanBlobsGo, if_neg h]
    · by_cases hopen : c = '{' ∨ c = '['
      · rw [scanBlobsGo, if_pos hopen, h]
      · rw [scanBlobsGo, if_neg hopen]

/-- Witness for C7's scan-step equations at a concrete success: a
decode succeeding at `[` records the value and resumes after it. -/
theorem json_blob_scan_witness :
    scanBlobsGo 2 ['[', ']'] = JVal.arr [] :: scanBlobsGo 1 [] :=
  (json_blob_scan 1).2.1 '[' [']'] (.arr []) [] (.inr rfl) rfl

/-! ## C2 -/

/-- C2: a non-200 reviews-API page makes `try_fetch_reviews_api` return
immediately with an empty list and that status, discarding anything
collected on earlier pages; the product-page fallback then runs, and in
general the fallback runs exactly when tier 1 produced zero reviews, so
with a non-200 on page 1 the snapshot's reviews equal what the fallback
tier alone produces. -/
theorem api_error_discards_and_falls_back
    (oracle : String → Option Rat) (apiEnv : Nat → ApiResp)
    (pageEnv : String → Nat × String) (praw : List RawProduct)
    (maxPages maxProducts : Nat) :
    (∀ (p : Nat) (rest : List Nat) (acc : List Review),
        (apiEnv p).status ≠ 200 →
        fetchLoop oracle apiEnv (p :: rest) acc = .ok ([], some (apiEnv p).status))
    ∧ (1 ≤ maxPages → (apiEnv 1).status ≠ 200 →
        try_fetch_reviews_api oracle apiEnv maxPages = .ok ([], some (apiEnv 1).status)
        ∧ collectReviews oracle apiEnv pageEnv praw maxPages maxProducts
          = scrape_reviews_from_product_pages oracle pageEnv praw maxProducts)
    ∧ (∀ (rs : List Review) (st : Option Nat),
        try_fetch_reviews_api oracle apiEnv maxPages = .ok (rs, st) →
        collectReviews oracle apiEnv pageEnv praw maxPages maxProducts
          = if rs.isEmpty then
              scrape_reviews_from_product_pages oracle pageEnv praw maxProducts
            else .ok rs) := by
  have hstep : ∀ (p : Nat) (rest : List Nat) (acc : List Review),
      (apiEnv p).status ≠ 200 →
      fetchLoop oracle apiEnv (p :: rest) acc = .ok ([], some (apiEnv p).status) := by
    intro p rest acc h
    rw [fetchLoop]
    rw [if_pos h]
  refine ⟨hstep, ?_, ?_⟩
  · intro hmax h1
    cases maxPages with
    | zero => omega
    | succ m =>
      have htf : try_fetch_reviews_api oracle apiEnv (m + 1)
          = .ok ([], some (apiEnv 1).status) := by
        rw [try_fetch_reviews_api, List.range'_succ]
        exact hstep 1 _ [] h1
      refine ⟨htf, ?_⟩
      rw [collectReviews, htf]
      rfl
  · intro rs st htf
    rw [collectReviews, htf]

/-- Witness for C2: a 404 on page 1 yields an empty tier-1 result with that
status, and the run's reviews are the fallback tier's output. -/
theorem api_error_witness :
    try_fetch_reviews_api (fun _ => none) (fun _ => ⟨404, none⟩) 3
      = .ok ([], some 404)
    ∧ collectReviews (fun _ => none) (fun _ => ⟨404, none⟩)
        (fun _ => (200, "")) [] 3 60
      = scrape_reviews_from_product_pages (fun _ => none)
          (fun _ => (200, "")) [] 60 :=
  (api_error_discards_and_falls_back (fun _ => none) (fun _ => ⟨404, none⟩)
      (fun _ => (200, "")) [] 3 60).2.1 (by omega) (by decide)

/-! ## C10 -/

/-- C10: a 200 response whose body is not valid JSON does not raise:
`try_fetch_reviews_api` returns an empty list with the sentinel status
0, and the run proceeds to the product-page fallback tier. -/
theorem api_invalid_json_sentinel
    (oracle : String → Option Rat) (apiEnv : Nat → ApiResp)
    (pageEnv : String → Nat × String) (praw : List RawProduct)
    (maxPages maxProducts : Nat) :
    (∀ (p : Nat) (rest : List Nat) (acc : List Review),
        (apiEnv p).status = 200 → (apiEnv p).json = none →
        fetchLoop oracle apiEnv (p :: rest) acc = .ok ([], some 0))
    ∧ (1 ≤ maxPages → (apiEnv 1).status = 200 → (apiEnv 1).json = none →
        try_fetch_reviews_api oracle apiEnv maxPages = .ok ([], some 0)
        ∧ collectReviews oracle apiEnv pageEnv praw maxPages maxProducts
          = scrape_reviews_from_product_pages oracle pageEnv praw maxProducts) := by
  have hstep : ∀ (p : Nat) (rest : List Nat) (acc : List Review),
      (apiEnv p).status = 200 → (apiEnv p).json = none →
      fetchLoop oracle apiEnv (p :: rest) acc = .ok ([], some 0) := by
    intro p rest acc hs hj
    rw [fetchLoop]
    rw [if_neg (by simp [hs]), hj]
  refine ⟨hstep, ?_⟩
  intro hmax h1s h1j
  cases maxPages with
  | zero => omega
  | succ m =>
    have htf : try_fetch_reviews_api oracle apiEnv (m + 1) = .ok ([], some 0) := by
      rw [try_fetch_reviews_api, List.range'_succ]
      exact hstep 1 _ [] h1s h1j
    refine ⟨htf, ?_⟩
    rw [collectReviews, htf]
    rfl

/-- Witness for C10: a 200 page with an unparseable body yields the
sentinel and the fallback output. -/
theorem api_invalid_json_witness :
    try_fetch_reviews_api (fun _ => none) (fun _ => ⟨200, none⟩) 3
      = .ok ([], some 0)
    ∧ collectReviews (fun _ => none) (fun _ => ⟨200, none⟩)
        (fun _ => (200, "")) [] 3 60
      = scrape_reviews_from_product_pages (fun _ => none)
          (fun _ => (200, "")) [] 60 :=
  (api_invalid_json_sentinel (fun _ => none) (fun _ => ⟨200, none⟩)
      (fun _ => (200, "")) [] 3 60).2 (by omega) rfl rfl

/-! ## C1 -/

/-- The year filter only lets 2023 instants through. -/
theorem keepOnly2023_year {x : Option Rat} {dt : Rat}
    (h : keepOnly2023 x = some dt) : yearOf dt = 2023 := by
  cases x with
  | none => simp [keepOnly2023] at h
  | some d =>
    rw [keepOnly2023] at h
    split at h
    · rename_i hy
      injection h with h'
      subst h'
      exact hy
    · exact absurd h (by simp)

/-- A review kept by the tier-1 item normalizer satisfies the review
invariant. -/
theorem apiItemReview_good {oracle : String → Option Rat} {it : JVal}
    {rv : Review} (h : apiItemReview oracle it = .ok (some rv)) :
    ReviewGood rv := by
  cases it with
  | obj o =>
    rw [apiItemReview] at h
    cases hts : pyStripStr (pyOrChain
        [jget o "text", jget o "body", jget o "comment", jget o "review", .str ""]) with
    | error e => rw [hts] at h; exact absurd h (by simp)
    | ok text =>
      rw [hts] at h
      dsimp only at h
      by_cases htext : text = ""
      · rw [if_pos htext] at h; exact absurd h (by simp)
      · rw [if_neg htext] at h
        cases hk : keepOnly2023 (parseDate oracle (pyOrChain
            [jget o "date", jget o "created_at", jget o "createdAt",
             jget o "timestamp"])) with
        | none => rw [hk] at h; exact absurd h (by simp)
        | some dt =>
          rw [hk] at h
          injection h with h'
          injection h' with h''
          subst h''
          exact ⟨htext, dateOf dt, rfl, keepOnly2023_year hk⟩
  | null => exact absurd h (by simp [apiItemReview])
  | bool b => exact absurd h (by simp [apiItemReview])
  | num n => exact absurd h (by simp [apiItemReview])
  | str s => exact absurd h (by simp [apiItemReview])
  | arr l => exact absurd h (by simp [apiItemReview])

/-- The tier-1 per-page fold preserves the review invariant. -/
theorem processApiItems_good {oracle : String → Option Rat} :
    ∀ (items : List JVal) (acc out : List Review),
      (∀ rv ∈ acc, ReviewGood rv) →
      processApiItems oracle items acc = .ok out →
      ∀ rv ∈ out, ReviewGood rv
  | [], acc, out, hacc, h => by
    rw [processApiItems] at h
    injection h with h'
    subst h'
    exact hacc
  | it :: rest, acc, out, hacc, h => by
    rw [processApiItems] at h
    cases hi : apiItemReview oracle it with
    | error e => rw [hi] at h; exact absurd h (by simp)
    | ok o =>
      rw [hi] at h
      cases o with
      | none => exact processApiItems_good rest acc out hacc h
      | some rv' =>
        refine processApiItems_good rest _ out ?_ h
        intro rv hrv
        rcases List.mem_append.1 hrv with h1 | h2
        · exact hacc rv h1
        · rw [List.mem_singleton.1 h2]
          exact apiItemReview_good hi

/-- The tier-1 page loop preserves the review invariant: whatever list
it returns (with whatever status) consists of invariant-satisfying
reviews. -/
theorem fetchLoop_good {oracle : String → Option Rat} {apiEnv : Nat → ApiResp} :
    ∀ (pages : List Nat) (acc rs : List Review) (st : Option Nat),
      (∀ rv ∈ acc, ReviewGood rv) →
      fetchLoop oracle apiEnv pages acc = .ok (rs, st) →
      ∀ rv ∈ rs, ReviewGood rv
  | [], acc, rs, st, hacc, h => by
    rw [fetchLoop] at h
    injection h with h'
    rw [Prod.mk.injEq] at h'
    rw [← h'.1]
    exact hacc
  | p :: rest, acc, rs, st, hacc, h => by
    rw [fetchLoop] at h
    split at h
    · injection h with h'
      rw [Prod.mk.injEq] at h'
      rw [← h'.1]
      simp
    · cases hj : (apiEnv p).json with
      | none =>
        rw [hj] at h
        injection h with h'
        rw [Prod.mk.injEq] at h'
        rw [← h'.1]
        simp
      | some data =>
        rw [hj] at h
        dsimp only at h
        cases hgi : getItems data with
        | none =>
          rw [hgi] at h
          injection h with h'
          rw [Prod.mk.injEq] at h'
          rw [← h'.1]
          exact hacc
        | some items =>
          rw [hgi] at h
          dsimp only at h
          split at h
          · injection h with h'
            rw [Prod.mk.injEq] at h'
            rw [← h'.1]
            exact hacc
          · cases hpi : processApiItems oracle items acc with
            | error e => rw [hpi] at h; exact absurd h (by simp)
            | ok acc' =>
              rw [hpi] at h
              exact fetchLoop_good rest acc' rs st
                (processApiItems_good items acc acc' hacc hpi) h

/-- A review kept by `_normalize_review_obj` satisfies the review
invariant. -/
theorem normalize_review_obj_good {oracle : String → Option Rat}
    {r : List (String × JVal)} {pid : String} {rv : Review}
    (h : normalize_review_obj oracle r pid = .ok (some rv)) :
    ReviewGood rv := by
  rw [normalize_review_obj] at h
  cases hts : pyStripStr (pyOrChain
      [jget r "text", jget r "body", jget r "comment", jget r "review", .str ""]) with
  | error e => rw [hts] at h; exact absurd h (by simp)
  | ok text =>
    rw [hts] at h
    dsimp only at h
    by_cases htext : text = ""
    · rw [if_pos htext] at h; exact absurd h (by simp)
    · rw [if_neg htext] at h
      cases hk : keepOnly2023 (parseDate oracle (pyOrChain
          [jget r "date", jget r "created_at", jget r "createdAt",
           jget r "timestamp"])) with
      | none => rw [hk] at h; exact absurd h (by simp)
      | some dt =>
        rw [hk] at h
        injection h with h'
        injection h' with h''
        subst h''
        exact ⟨htext, dateOf dt, rfl, keepOnly2023_year hk⟩

/-- The helper `addNormed` preserves the invariant of the accumulated output. -/
theorem addNormed_good {pid : String} {norm : Review}
    {st : List ReviewKey × List Review}
    (hst : ∀ rv ∈ st.2, ReviewGood rv) (hnorm : ReviewGood norm) :
    ∀ rv ∈ (addNormed pid norm st).2, ReviewGood rv := by
  rw [addNormed]
  split
  · exact hst
  · intro rv hrv
    rcases List.mem_append.1 hrv with h1 | h2
    · exact hst rv h1
    · rw [List.mem_singleton.1 h2]
      exact hnorm

/-- The candidate-list fold of tier 2 preserves the invariant. -/
theorem normList_good {oracle : String → Option Rat} {pid : String} :
    ∀ (l : List JVal) (st st' : List ReviewKey × List Review),
      (∀ rv ∈ st.2, ReviewGood rv) →
      normList oracle pid l st = .ok st' →
      ∀ rv ∈ st'.2, ReviewGood rv
  | [], st, st', hst, h => by
    rw [normList] at h
    injection h with h'
    subst h'
    exact hst
  | rr :: rest, st, st', hst, h => by
    cases rr with
    | obj o =>
      rw [normList] at h
      cases hn : normalize_review_obj oracle o pid with
      | error e => rw [hn] at h; exact absurd h (by simp)
      | ok w =>
        rw [hn] at h
        cases w with
        | none => exact normList_good rest st st' hst h
        | some norm =>
          exact normList_good rest _ st' (addNormed_good hst (normalize_review_obj_good hn)) h
    | null => exact normList_good rest st st' hst h
    | bool b => exact normList_good rest st st' hst h
    | num n => exact normList_good rest st st' hst h
    | str s => exact normList_good rest st st' hst h
    | arr l => exact normList_good rest st st' hst h

/-- The dict branch of the blob inspection preserves the invariant. -/
theorem processBlobDict_good {oracle : String → Option Rat} {pid : String}
    {o : List (String × JVal)} :
    ∀ (ks : List String) (st st' : List ReviewKey × List Review),
      (∀ rv ∈ st.2, ReviewGood rv) →
      processBlobDict oracle pid o ks st = .ok st' →
      ∀ rv ∈ st'.2, ReviewGood rv
  | [], st, st', hst, h => by
    rw [processBlobDict] at h
    injection h with h'
    subst h'
    exact hst
  | k :: ks, st, st', hst, h => by
    rw [processBlobDict] at h
    cases hv : jget o k with
    | arr v =>
      rw [hv] at h
      dsimp only at h
      cases hn : normList oracle pid v st with
      | error e => rw [hn] at h; exact absurd h (by simp)
      | ok st1 =>
        rw [hn] at h
        exact processBlobDict_good ks st1 st' (normList_good v st st1 hst hn) h
    | null => rw [hv] at h; dsimp only at h; exact processBlobDict_good ks st st' hst h
    | bool b => rw [hv] at h; dsimp only at h; exact processBlobDict_good ks st st' hst h
    | num n => rw [hv] at h; dsimp only at h; exact processBlobDict_good ks st st' hst h
    | str s => rw [hv] at h; dsimp only at h; exact processBlobDict_good ks st st' hst h
    | obj o2 => rw [hv] at h; dsimp only at h; exact processBlobDict_good ks st st' hst h

/-- One blob's inspection preserves the invariant. -/
theorem processBlob_good {oracle : String → Option Rat} {pid : String}
    {b : JVal} {st st' : List ReviewKey × List Review}
    (hst : ∀ rv ∈ st.2, ReviewGood rv)
    (h : processBlob oracle pid b st = .ok st') :
    ∀ rv ∈ st'.2, ReviewGood rv := by
  cases b with
  | obj o =>
    simp only [processBlob] at h
    try dsimp only at h
    cases hd : processBlobDict oracle pid o ["reviews", "review", "customerReviews"] st with
    | error e => rw [hd] at h; exact absurd h (by simp)
    | ok st1 =>
      rw [hd] at h
      injection h with h'
      subst h'
      exact processBlobDict_good _ st st1 hst hd
  | arr l =>
    cases l with
    | nil =>
      simp only [processBlob] at h
      injection h with h'
      subst h'
      exact hst
    | cons first restL =>
      cases first with
      | obj sample =>
        simp only [processBlob] at h
        try dsimp only at h
        split at h
        · exact normList_good _ st st' hst h
        · injection h with h'
          subst h'
          exact hst
      | null => simp only [processBlob] at h; injection h with h'; subst h'; exact hst
      | bool b2 => simp only [processBlob] at h; injection h with h'; subst h'; exact hst
      | num n => simp only [processBlob] at h; injection h with h'; subst h'; exact hst
      | str s => simp only [processBlob] at h; injection h with h'; subst h'; exact hst
      | arr l2 => simp only [processBlob] at h; injection h with h'; subst h'; exact hst
  | null => simp only [processBlob] at h; injection h with h'; subst h'; exact hst
  | bool b2 => simp only [processBlob] at h; injection h with h'; subst h'; exact hst
  | num n => simp only [processBlob] at h; injection h with h'; subst h'; exact hst
  | str s => simp only [processBlob] at h; injection h with h'; subst h'; exact hst

/-- All blobs of one page preserve the invariant. -/
theorem processBlobs_good {oracle : String → Option Rat} {pid : String} :
    ∀ (bs : List JVal) (st st' : List ReviewKey × List Review),
      (∀ rv ∈ st.2, ReviewGood rv) →
      processBlobs oracle pid bs st = .ok st' →
      ∀ rv ∈ st'.2, ReviewGood rv
  | [], st, st', hst, h => by
    rw [processBlobs] at h
    injection h with h'
    subst h'
    exact hst
  | b :: rest, st, st', hst, h => by
    rw [processBlobs] at h
    cases hb : processBlob oracle pid b st with
    | error e => rw [hb] at h; exact absurd h (by simp)
    | ok st1 =>
      rw [hb] at h
      exact processBlobs_good rest st1 st' (processBlob_good hst hb) h

/-- The tier-2 product loop preserves the invariant. -/
theorem tier2Go_good {oracle : String → Option Rat}
    {pageEnv : String → Nat × String} :
    ∀ (prods : List RawProduct) (st : List ReviewKey × List Review)
      (out : List Review),
      (∀ rv ∈ st.2, ReviewGood rv) →
      tier2Go oracle pageEnv prods st = .ok out →
      ∀ rv ∈ out, ReviewGood rv
  | [], st, out, hst, h => by
    rw [tier2Go] at h
    injection h with h'
    subst h'
    exact hst
  | p :: rest, st, out, hst, h => by
    rw [tier2Go] at h
    dsimp only at h
    split at h
    · exact tier2Go_good rest st out hst h
    · split at h
      · exact absurd h (by simp)
      · cases hb : processBlobs oracle (pyStrip p.id)
            (extract_json_blobs (pageEnv p.url).2) st with
        | error e => rw [hb] at h; exact absurd h (by simp)
        | ok st1 =>
          rw [hb] at h
          exact tier2Go_good rest st1 out (processBlobs_good _ st st1 hst hb) h

/-- C1: every review in the snapshot's reviews list — whichever tier
produced it — has non-empty text and a date that renders an ISO calendar
date with year 2023; items failing either extraction never appear. -/
theorem snapshot_reviews_text_and_year
    (oracle : String → Option Rat) (apiEnv : Nat → ApiResp)
    (pageEnv : String → Nat × String) (praw : List RawProduct)
    (maxPages maxProducts : Nat) (rs : List Review)
    (h : collectReviews oracle apiEnv pageEnv praw maxPages maxProducts = .ok rs) :
    ∀ rv ∈ rs, rv.text ≠ "" ∧ ∃ d : Date, rv.date = isoDate d ∧ d.year = 2023 := by
  rw [collectReviews] at h
  cases htf : try_fetch_reviews_api oracle apiEnv maxPages with
  | error e => rw [htf] at h; exact absurd h (by simp)
  | ok pr =>
    obtain ⟨reviews, st⟩ := pr
    rw [htf] at h
    dsimp only at h
    by_cases hemp : reviews.isEmpty
    · rw [if_pos hemp] at h
      exact tier2Go_good _ ([], []) rs (by simp) h
    · rw [if_neg hemp] at h
      injection h with h'
      subst h'
      exact fetchLoop_good (List.range' 1 maxPages) [] reviews st (by simp) htf

/-- Witness for C1: a run whose API page holds one valid 2023 item (and
whose fallback is never needed) produces exactly that review, and the
theorem applies to it. -/
theorem snapshot_reviews_witness :
    ({ product_id := .null, date := "2023-01-01", text := "Great product",
       rating := some .null, author := some .null,
       source := "api" } : Review).text ≠ ""
    ∧ ∃ d : Date,
        ({ product_id := .null, date := "2023-01-01", text := "Great product",
           rating := some .null, author := some .null,
           source := "api" } : Review).date = isoDate d ∧ d.year = 2023 :=
  snapshot_reviews_text_and_year (fun _ => none)
    (fun _ => ⟨200, some (.obj [("reviews",
      .arr [.obj [("text", .str " Great product "), ("date", .num 1672531200)]])])⟩)
    (fun _ => (200, "")) [] 1 60
    [{ product_id := .null, date := "2023-01-01", text := "Great product",
       rating := some .null, author := some .null, source := "api" }] rfl
    _ (List.mem_singleton.mpr rfl)

end Scrape
